import Mathlib

/-!
Shallow embedding of `src/shazam.py` (Shazam-Tool) and verification of the
specification's claims about its segmentation / recognition / aggregation
pipeline.

Modelling conventions:
* A pydub `AudioSegment` is a `List α` with one element per millisecond, so
  `len(audio)` is `List.length` and `audio[i:i+n]` is `(audio.drop i).take n`.
* `range(start, stop, step)` is `rangeStep start stop step`.
* Effects (file writes, sleeps, log lines) are returned explicitly as data.
* A Python `set` is modelled as a `List` queried with membership, which is
  observationally equivalent for the uses in the source.
-/

namespace Shazam

/-- `SEGMENT_LENGTH = 60 * 1000` — duration of each segment in milliseconds. -/
def SEGMENT_LENGTH : Nat := 60 * 1000

/-- Helper for `rangeStep`: structural recursion on a fuel argument, which
`rangeStep` instantiates with `stop - start`; each iteration moves `start`
forward by `step ≥ 1`, so that much fuel always suffices. -/
def rangeStepGo (step : Nat) : Nat → Nat → Nat → List Nat
  | 0, _, _ => []
  | fuel + 1, start, stop =>
    if 0 < step ∧ start < stop then start :: rangeStepGo step fuel (start + step) stop
    else []

/-- Python `range(start, stop, step)` for a positive `step` (an empty list for
`step = 0`, a case the source never exercises). -/
def rangeStep (start stop step : Nat) : List Nat :=
  rangeStepGo step (stop - start) start stop

/-- Python slice `xs[i : i + n]` on a list. -/
def pySlice (xs : List α) (i n : Nat) : List α := (xs.drop i).take n

/-- `ceil(d / w)` on naturals (for `w > 0`). -/
def ceilDiv (d w : Nat) : Nat := (d + w - 1) / w

/-- The list comprehension in `segment_audio`
(`src/shazam.py:234`): `[audio[i:i + SEGMENT_LENGTH] for i in range(0, len(audio), SEGMENT_LENGTH)]`. -/
def segment_audio_segments (audio : List α) : List (List α) :=
  (rangeStep 0 audio.length SEGMENT_LENGTH).map (fun i => pySlice audio i SEGMENT_LENGTH)

/-- The artifact name given to the `idx`-th (1-based) segment
(`src/shazam.py:241`): `f"{idx}.mp3"`. -/
def segmentFileName (idx : Nat) : String := toString idx ++ ".mp3"

/-- The materialized segment artifacts of `segment_audio`: 1-based numbering of
the chronological segment list (`enumerate(segments, start=1)`). -/
def segment_audio_files (audio : List α) : List (String × List α) :=
  (segment_audio_segments audio).enum.map (fun p => (segmentFileName (p.1 + 1), p.2))

theorem rangeStepGo_seg_eq (fuel : Nat) : ∀ start stop : Nat, stop - start ≤ fuel →
    rangeStepGo SEGMENT_LENGTH fuel start stop
      = (List.range (ceilDiv (stop - start) SEGMENT_LENGTH)).map (fun i => start + i * SEGMENT_LENGTH) := by
  induction fuel with
  | zero =>
    intro start stop h
    have h0 : stop - start = 0 := by omega
    rw [rangeStepGo, h0]
    have : ceilDiv 0 SEGMENT_LENGTH = 0 := by simp [ceilDiv, SEGMENT_LENGTH]
    rw [this]; rfl
  | succ fuel ih =>
    intro start stop h
    rw [rangeStepGo]
    by_cases hlt : start < stop
    · have hpos : (0 : Nat) < SEGMENT_LENGTH := by simp [SEGMENT_LENGTH]
      rw [if_pos ⟨hpos, hlt⟩]
      rw [ih (start + SEGMENT_LENGTH) stop (by simp only [SEGMENT_LENGTH] at *; omega)]
      have hm : ceilDiv (stop - start) SEGMENT_LENGTH
          = ceilDiv (stop - (start + SEGMENT_LENGTH)) SEGMENT_LENGTH + 1 := by
        simp only [ceilDiv, SEGMENT_LENGTH] at *; omega
      rw [hm, List.range_succ_eq_map, List.map_cons, List.map_map]
      refine congrArg₂ _ (by omega) (List.map_congr_left ?_)
      intro i _
      simp only [Function.comp_apply, Nat.succ_eq_add_one]
      ring
    · rw [if_neg (by exact fun hc => hlt hc.2)]
      have h0 : stop - start = 0 := by omega
      rw [h0]
      have : ceilDiv 0 SEGMENT_LENGTH = 0 := by simp [ceilDiv, SEGMENT_LENGTH]
      rw [this]; rfl

theorem rangeStep_seg (stop : Nat) :
    rangeStep 0 stop SEGMENT_LENGTH
      = (List.range (ceilDiv stop SEGMENT_LENGTH)).map (fun i => i * SEGMENT_LENGTH) := by
  have h := rangeStepGo_seg_eq stop 0 stop (by omega)
  unfold rangeStep
  simpa using h

/-- Duration (length) of each produced segment, in chronological order. -/
theorem segment_durations (audio : List α) :
    (segment_audio_segments audio).map List.length
      = (List.range (ceilDiv audio.length SEGMENT_LENGTH)).map
          (fun i => min SEGMENT_LENGTH (audio.length - i * SEGMENT_LENGTH)) := by
  unfold segment_audio_segments
  rw [rangeStep_seg, List.map_map, List.map_map]
  refine List.map_congr_left ?_
  intro i _
  simp [pySlice, List.length_take, List.length_drop]

theorem segment_audio_segments_length (audio : List α) :
    (segment_audio_segments audio).length = ceilDiv audio.length SEGMENT_LENGTH := by
  unfold segment_audio_segments
  rw [rangeStep_seg]
  simp

/-- C1: with window `SEGMENT_LENGTH = 60000` ms, `segment_audio` produces exactly
`ceil(D / W)` segments from a `D`-ms buffer, named `1.mp3 .. N.mp3` in
chronological order; every segment but the last lasts exactly `W` ms, the last
lasts `D mod W` ms when that is nonzero and `W` ms otherwise; a 150000 ms buffer
yields 3 segments of 60000, 60000 and 30000 ms. -/
theorem segment_audio_windowing (audio : List α) :
    ((segment_audio_segments audio).length = ceilDiv audio.length SEGMENT_LENGTH)
    ∧ (∀ k, k + 1 < (segment_audio_segments audio).length →
        ((segment_audio_segments audio).map List.length).getD k 0 = SEGMENT_LENGTH)
    ∧ (0 < (segment_audio_segments audio).length →
        ((segment_audio_segments audio).map List.length).getLast?
          = some (if audio.length % SEGMENT_LENGTH = 0 then SEGMENT_LENGTH
                  else audio.length % SEGMENT_LENGTH))
    ∧ ((segment_audio_files audio).map Prod.fst
        = (List.range' 1 ((segment_audio_segments audio).length)).map segmentFileName)
    ∧ ((segment_audio_segments (List.replicate 150000 ())).map List.length
        = [60000, 60000, 30000]) := by
  have hN := segment_audio_segments_length audio
  refine ⟨hN, ?_, ?_, ?_, ?_⟩
  · intro k hk
    rw [hN] at hk
    rw [segment_durations, List.getD_eq_getElem?_getD, List.getElem?_map,
        List.getElem?_range (by omega : k < ceilDiv audio.length SEGMENT_LENGTH)]
    simp only [Option.map_some', Option.getD_some]
    simp only [ceilDiv, SEGMENT_LENGTH] at *
    omega
  · intro hpos
    rw [hN] at hpos
    rw [segment_durations, List.getLast?_eq_getElem?]
    have hlen : ((List.range (ceilDiv audio.length SEGMENT_LENGTH)).map
        (fun i => min SEGMENT_LENGTH (audio.length - i * SEGMENT_LENGTH))).length
        = ceilDiv audio.length SEGMENT_LENGTH := by simp
    rw [hlen, List.getElem?_map,
        List.getElem?_range (by omega : ceilDiv audio.length SEGMENT_LENGTH - 1
          < ceilDiv audio.length SEGMENT_LENGTH)]
    simp only [Option.map_some']
    refine congrArg some ?_
    by_cases h0 : audio.length % SEGMENT_LENGTH = 0
    · rw [if_pos h0]
      simp only [ceilDiv, SEGMENT_LENGTH] at *
      omega
    · rw [if_neg h0]
      simp only [ceilDiv, SEGMENT_LENGTH] at *
      omega
  · unfold segment_audio_files
    rw [List.map_map, List.range'_eq_map_range]
    have henum : (segment_audio_segments audio).enum.map
        (fun p => segmentFileName (p.1 + 1))
        = ((segment_audio_segments audio).enum.map Prod.fst).map
            (fun i => segmentFileName (i + 1)) := by
      rw [List.map_map]
      rfl
    refine henum.trans ?_
    rw [List.enum_map_fst, List.map_map]
    refine List.map_congr_left ?_
    intro i _
    simp only [Function.comp_apply]
    rw [Nat.add_comm 1 i]
  · rw [segment_durations, List.length_replicate]
    have hc : ceilDiv 150000 SEGMENT_LENGTH = 3 := by norm_num [ceilDiv, SEGMENT_LENGTH]
    rw [hc]
    decide

/-- Witness for C1 at the spec's concrete scenario: buffer of 150000 ms. -/
theorem segment_audio_windowing_witness :
    ((segment_audio_segments (List.replicate 150000 ())).map List.length).getD 0 0
        = SEGMENT_LENGTH
    ∧ ((segment_audio_segments (List.replicate 150000 ())).map List.length).getLast?
        = some 30000 := by
  have h := segment_audio_windowing (List.replicate 150000 ())
  have hN : (segment_audio_segments (List.replicate (150000 : Nat) ())).length = 3 := by
    rw [h.1, List.length_replicate]
    norm_num [ceilDiv, SEGMENT_LENGTH]
  refine ⟨h.2.1 0 (by rw [hN]; decide), ?_⟩
  have hlast := h.2.2.1 (by rw [hN]; decide)
  rw [hlast, List.length_replicate]
  norm_num [SEGMENT_LENGTH]

/-- One raw interaction with the recognition service inside `get_name`
(`src/shazam.py:262`), per attempt index: the awaited call raises (`err`,
any exception, including a malformed payload), returns a payload without a
`track` key (`noTrack`), or returns a payload carrying `track.title` and
`track.subtitle`. -/
inductive RecogResponse where
  | err : RecogResponse
  | noTrack : RecogResponse
  | found (title subtitle : String) : RecogResponse
deriving DecidableEq

/-- `true` exactly on a successful recognition payload. -/
def RecogResponse.isFound : RecogResponse → Bool
  | .found _ _ => true
  | _ => false

/-- Observable outcome of one `get_name` call: the returned value (`none`
models Python's implicit `None` when the `for` body never runs), the number of
service attempts made, and the `asyncio.sleep` durations performed in order. -/
structure GetNameRun where
  result : Option String
  attempts : Nat
  sleeps : List Nat
deriving DecidableEq

/-- The body of `get_name`'s `for attempt in range(max_retries)` loop
(`src/shazam.py:259-283`), recursing over the remaining attempt indices.
Falling off the list models falling off the loop (Python returns `None`). -/
def get_name_go (svc : Nat → RecogResponse) (max_retries : Nat) :
    List Nat → GetNameRun
  | [] => { result := none, attempts := 0, sleeps := [] }
  | attempt :: rest =>
    match svc attempt with
    | .found title subtitle =>
        { result := some (subtitle ++ " - " ++ title), attempts := 1, sleeps := [] }
    | .noTrack =>
        if attempt < max_retries - 1 then
          let r := get_name_go svc max_retries rest
          { result := r.result, attempts := r.attempts + 1, sleeps := 2 :: r.sleeps }
        else { result := some "Not found", attempts := 1, sleeps := [] }
    | .err =>
        if attempt < max_retries - 1 then
          let r := get_name_go svc max_retries rest
          { result := r.result, attempts := r.attempts + 1, sleeps := 2 :: r.sleeps }
        else { result := some "Not found", attempts := 1, sleeps := [] }

/-- `get_name` (`src/shazam.py:253`): bounded retry around the recognition
service, default `max_retries = 3`, fixed 2-unit sleep between attempts. -/
def get_name (svc : Nat → RecogResponse) (max_retries : Nat := 3) : GetNameRun :=
  get_name_go svc max_retries (List.range max_retries)

theorem get_name_go_cons_found (svc : Nat → RecogResponse) (m a : Nat)
    (rest : List Nat) (t s : String) (h : svc a = .found t s) :
    get_name_go svc m (a :: rest)
      = ⟨some (s ++ " - " ++ t), 1, []⟩ := by
  simp [get_name_go, h]

theorem get_name_go_cons_retry (svc : Nat → RecogResponse) (m a : Nat)
    (rest : List Nat) (hfa : (svc a).isFound = false) (hmid : a < m - 1) :
    get_name_go svc m (a :: rest)
      = ⟨(get_name_go svc m rest).result, (get_name_go svc m rest).attempts + 1,
          2 :: (get_name_go svc m rest).sleeps⟩ := by
  cases hsvc : svc a with
  | found t s => rw [hsvc] at hfa; simp [RecogResponse.isFound] at hfa
  | noTrack => simp [get_name_go, hsvc, hmid]
  | err => simp [get_name_go, hsvc, hmid]

theorem get_name_go_cons_exhaust (svc : Nat → RecogResponse) (m a : Nat)
    (rest : List Nat) (hfa : (svc a).isFound = false) (hlast : ¬ a < m - 1) :
    get_name_go svc m (a :: rest) = ⟨some "Not found", 1, []⟩ := by
  cases hsvc : svc a with
  | found t s => rw [hsvc] at hfa; simp [RecogResponse.isFound] at hfa
  | noTrack => simp [get_name_go, hsvc, hlast]
  | err => simp [get_name_go, hsvc, hlast]

theorem get_name_go_all_fail (svc : Nat → RecogResponse) (m : Nat) :
    ∀ n a, a + n = m → 1 ≤ n → (∀ i, a ≤ i → i < m → (svc i).isFound = false) →
      get_name_go svc m (List.range' a n)
        = ⟨some "Not found", n, List.replicate (n - 1) 2⟩ := by
  intro n
  induction n with
  | zero => intro a _ h1 _; omega
  | succ n ih =>
    intro a ham _ hfail
    rw [List.range'_succ]
    have hfa : (svc a).isFound = false := hfail a (le_refl a) (by omega)
    rcases n.eq_zero_or_pos with hn0 | hnpos
    · subst hn0
      rw [get_name_go_cons_exhaust svc m a _ hfa (by omega)]
      rfl
    · rw [get_name_go_cons_retry svc m a _ hfa (by omega),
          ih (a + 1) (by omega) (by omega) (fun i hi him => hfail i (by omega) him)]
      have hrep : (2 : Nat) :: List.replicate (n - 1) 2 = List.replicate (n + 1 - 1) 2 := by
        have h1 : n + 1 - 1 = (n - 1) + 1 := by omega
        rw [h1, List.replicate_succ]
      simp [hrep]

theorem get_name_go_first_found (svc : Nat → RecogResponse) (m : Nat)
    (t s : String) :
    ∀ j a n, a + n = m → j < n →
      (∀ i, a ≤ i → i < a + j → (svc i).isFound = false) →
      svc (a + j) = .found t s →
      get_name_go svc m (List.range' a n)
        = ⟨some (s ++ " - " ++ t), j + 1, List.replicate j 2⟩ := by
  intro j
  induction j with
  | zero =>
    intro a n ham hj _ hfound
    obtain ⟨n', rfl⟩ : ∃ n', n = n' + 1 := ⟨n - 1, by omega⟩
    rw [List.range'_succ,
        get_name_go_cons_found svc m a _ t s (by simpa using hfound)]
    rfl
  | succ j ih =>
    intro a n ham hj hfail hfound
    obtain ⟨n', rfl⟩ : ∃ n', n = n' + 1 := ⟨n - 1, by omega⟩
    have hfa : (svc a).isFound = false := hfail a (le_refl a) (by omega)
    rw [List.range'_succ, get_name_go_cons_retry svc m a _ hfa (by omega),
        ih (a + 1) n' (by omega) (by omega)
          (fun i hi him => hfail i (by omega) (by omega))
          (by rw [show a + 1 + j = a + (j + 1) from by omega]; exact hfound)]
    simp [List.replicate_succ]

/-- C2: the Retry Policy of `get_name` is idempotent in attempt count: with a
service failing on every attempt, exactly `max_retries` attempts occur, the
sentinel `"Not found"` is returned, and a fixed 2-unit sleep separates each
pair of consecutive attempts; with a service first succeeding on attempt
`k ≤ max_retries`, exactly `k` attempts occur and the canonical
`"Artist - Title"` string is returned. -/
theorem get_name_retry_policy (svc : Nat → RecogResponse) (m : Nat) (hm : 1 ≤ m) :
    ((∀ i, i < m → (svc i).isFound = false) →
        get_name svc m = ⟨some "Not found", m, List.replicate (m - 1) 2⟩)
    ∧ (∀ k t s, 1 ≤ k → k ≤ m →
        (∀ j, j < k - 1 → (svc j).isFound = false) →
        svc (k - 1) = .found t s →
        get_name svc m = ⟨some (s ++ " - " ++ t), k, List.replicate (k - 1) 2⟩) := by
  constructor
  · intro hfail
    unfold get_name
    rw [List.range_eq_range']
    exact get_name_go_all_fail svc m m 0 (by omega) hm (fun i _ him => hfail i him)
  · intro k t s hk1 hkm hfail hfound
    unfold get_name
    rw [List.range_eq_range']
    have h := get_name_go_first_found svc m t s (k - 1) 0 m (by omega) (by omega)
      (fun i _ hi => hfail i (by omega)) (by simpa using hfound)
    rw [h, show k - 1 + 1 = k from by omega]

/-- Witness for C2: an always-failing service with the default 3 retries makes
3 attempts with two 2-unit sleeps; a service succeeding on attempt 2 makes
exactly 2 attempts and returns the canonical string. -/
theorem get_name_retry_policy_witness :
    get_name (fun _ => RecogResponse.err) 3
      = ⟨some "Not found", 3, List.replicate 2 2⟩
    ∧ get_name (fun i => if i = 0 then RecogResponse.err
          else RecogResponse.found "Blue" "Joni") 3
      = ⟨some ("Joni" ++ " - " ++ "Blue"), 2, List.replicate 1 2⟩ := by
  constructor
  · exact (get_name_retry_policy (fun _ => RecogResponse.err) 3 (by decide)).1
      (fun i _ => rfl)
  · exact (get_name_retry_policy _ 3 (by decide)).2 2 "Blue" "Joni"
      (by decide) (by decide)
      (fun j hj => by
        have hj0 : j = 0 := by omega
        subst hj0; rfl)
      rfl

theorem get_name_go_total (svc : Nat → RecogResponse) (m : Nat) :
    ∀ n a, a + n = m → 1 ≤ n →
      ∃ s, (get_name_go svc m (List.range' a n)).result = some s
        ∧ (s = "Not found" ∨ ∃ t st, s = st ++ " - " ++ t) := by
  intro n
  induction n with
  | zero => intro a _ h1; omega
  | succ n ih =>
    intro a ham _
    rw [List.range'_succ]
    cases hsvc : svc a with
    | found t s =>
      refine ⟨s ++ " - " ++ t, ?_, Or.inr ⟨t, s, rfl⟩⟩
      rw [get_name_go_cons_found svc m a _ t s hsvc]
    | noTrack =>
      by_cases hmid : a < m - 1
      · obtain ⟨s, hs, hshape⟩ := ih (a + 1) (by omega) (by omega)
        refine ⟨s, ?_, hshape⟩
        rw [get_name_go_cons_retry svc m a _ (by rw [hsvc]; rfl) hmid]
        exact hs
      · refine ⟨"Not found", ?_, Or.inl rfl⟩
        rw [get_name_go_cons_exhaust svc m a _ (by rw [hsvc]; rfl) hmid]
    | err =>
      by_cases hmid : a < m - 1
      · obtain ⟨s, hs, hshape⟩ := ih (a + 1) (by omega) (by omega)
        refine ⟨s, ?_, hshape⟩
        rw [get_name_go_cons_retry svc m a _ (by rw [hsvc]; rfl) hmid]
        exact hs
      · refine ⟨"Not found", ?_, Or.inl rfl⟩
        rw [get_name_go_cons_exhaust svc m a _ (by rw [hsvc]; rfl) hmid]

/-- C9: whatever the service does, for `max_retries ≥ 1` `get_name` returns a
string — the sentinel or a canonical `"Artist - Title"` — and never raises;
the precondition is needed because with `max_retries = 0` the loop body never
runs and Python's `None` (here `Option.none`) is returned instead. -/
theorem get_name_total (svc : Nat → RecogResponse) (m : Nat) :
    (1 ≤ m → ∃ s, (get_name svc m).result = some s
        ∧ (s = "Not found" ∨ ∃ t st, s = st ++ " - " ++ t))
    ∧ (get_name svc 0).result = none := by
  constructor
  · intro hm
    unfold get_name
    rw [List.range_eq_range']
    exact get_name_go_total svc m m 0 (by omega) hm
  · rfl

/-- Witness for C9 at a concrete always-`noTrack` service with one retry. -/
theorem get_name_total_witness :
    ∃ s, (get_name (fun _ => RecogResponse.noTrack) 1).result = some s
        ∧ (s = "Not found" ∨ ∃ t st, s = st ++ " - " ++ t) :=
  (get_name_total (fun _ => RecogResponse.noTrack) 1).1 (by decide)

/-- `write_to_file` (`src/shazam.py:116-125`): the lines this call appends to
the output artifact — one line when `data != "Not found"` and the underlying
filesystem write succeeds (`writeOk`), nothing otherwise (the `OSError` is
caught and only printed). -/
def write_to_file (data : String) (writeOk : Bool) : List String :=
  if data ≠ "Not found" then (if writeOk then [data] else []) else []

/-- State threaded through `_recognize_segments` (`src/shazam.py:286-305`):
the in-memory `unique_tracks` list and `seen_tracks` set (modelled as a list
queried by membership), the lines appended so far to the output artifact, and
how many `write_to_file` calls were issued (indexes the persistence oracle). -/
structure SeqState where
  unique_tracks : List String
  seen_tracks : List String
  fileLines : List String
  writeCalls : Nat
deriving DecidableEq

/-- One iteration of the `for` loop of `_recognize_segments`
(`src/shazam.py:289-305`), applied to the `get_name` outcome `track_name` of
the current segment. `get_name` never raises (see `get_name_total`) and
`write_to_file` swallows its own `OSError`, so the loop's `except` branch has
no successful-path effect to model; the progress log line and the pacing sleep
carry no state. -/
def recognize_segment_step (writeOk : Nat → Bool) (st : SeqState)
    (track_name : String) : SeqState :=
  if track_name ≠ "Not found" ∧ track_name ∉ st.seen_tracks then
    { unique_tracks := st.unique_tracks ++ [track_name]
      seen_tracks := track_name :: st.seen_tracks
      fileLines := st.fileLines ++ write_to_file track_name (writeOk st.writeCalls)
      writeCalls := st.writeCalls + 1 }
  else st

/-- `_recognize_segments` over the ordered per-segment `get_name` results of
one file, starting from the empty `unique_tracks` / `seen_tracks` that
`process_audio_file` creates (`src/shazam.py:315-316`). -/
def recognize_segments (writeOk : Nat → Bool) (results : List String) : SeqState :=
  results.foldl (recognize_segment_step writeOk) ⟨[], [], [], 0⟩

/-- Modelled from the spec: the order in which each distinct non-sentinel
string is first recognized — the reference for the refinement stated by the
TrackSet invariant. -/
def firstSeenOrder (seen : List String) : List String → List String
  | [] => []
  | r :: rs =>
    if r ≠ "Not found" ∧ r ∉ seen then r :: firstSeenOrder (r :: seen) rs
    else firstSeenOrder seen rs

theorem recognize_foldl_unique (writeOk : Nat → Bool) :
    ∀ (results : List String) (st : SeqState),
      (results.foldl (recognize_segment_step writeOk) st).unique_tracks
        = st.unique_tracks ++ firstSeenOrder st.seen_tracks results := by
  intro results
  induction results with
  | nil => intro st; simp [firstSeenOrder]
  | cons r rs ih =>
    intro st
    rw [List.foldl_cons, firstSeenOrder]
    by_cases h : r ≠ "Not found" ∧ r ∉ st.seen_tracks
    · rw [if_pos h]
      rw [show recognize_segment_step writeOk st r
            = { unique_tracks := st.unique_tracks ++ [r]
                seen_tracks := r :: st.seen_tracks
                fileLines := st.fileLines ++ write_to_file r (writeOk st.writeCalls)
                writeCalls := st.writeCalls + 1 } from by
          unfold recognize_segment_step; rw [if_pos h]]
      rw [ih]
      simp
    · rw [if_neg h]
      rw [show recognize_segment_step writeOk st r = st from by
          unfold recognize_segment_step; rw [if_neg h]]
      exact ih st

theorem firstSeenOrder_nodup :
    ∀ (results seen : List String),
      (firstSeenOrder seen results).Nodup
        ∧ ∀ x ∈ firstSeenOrder seen results, x ∉ seen := by
  intro results
  induction results with
  | nil => intro seen; simp [firstSeenOrder]
  | cons r rs ih =>
    intro seen
    rw [firstSeenOrder]
    by_cases h : r ≠ "Not found" ∧ r ∉ seen
    · rw [if_pos h]
      obtain ⟨hnd, hmem⟩ := ih (r :: seen)
      refine ⟨List.nodup_cons.mpr ⟨?_, hnd⟩, ?_⟩
      · intro hr
        exact (hmem r hr) (List.mem_cons_self r seen)
      · intro x hx
        rcases List.mem_cons.mp hx with rfl | hx'
        · exact h.2
        · intro hxs
          exact (hmem x hx') (List.mem_cons.mpr (Or.inr hxs))
    · rw [if_neg h]
      exact ih seen

/-- C3: over one file's segment results, `unique_tracks` never contains two
equal canonical strings, and its order is the order in which each distinct
non-sentinel string was first recognized; in particular two segments both
recognizing to `"A - B"` contribute it once, at its first occurrence. -/
theorem recognize_segments_dedup (writeOk : Nat → Bool) (results : List String) :
    (recognize_segments writeOk results).unique_tracks.Nodup
    ∧ (recognize_segments writeOk results).unique_tracks = firstSeenOrder [] results
    ∧ (recognize_segments (fun _ => true)
        ["A - B", "Not found", "A - B", "C - D"]).unique_tracks
        = ["A - B", "C - D"] := by
  have heq : (recognize_segments writeOk results).unique_tracks
      = firstSeenOrder [] results := by
    unfold recognize_segments
    rw [recognize_foldl_unique]
    simp
  refine ⟨?_, heq, by decide⟩
  rw [heq]
  exact (firstSeenOrder_nodup results []).1

/-- The per-file header line written by `process_audio_file`
(`src/shazam.py:319`): `f"===== {os.path.basename(audio_file)} ======"`. -/
def fileHeader (basename : String) : String := "===== " ++ basename ++ " ======"

/-- Observable events of one `process_audio_file` call
(`src/shazam.py:308-351`). -/
structure FileEvents where
  fileLines : List String
  headerErrorLogged : Bool
  segmentErrorLogged : Bool
  recognitionCalls : Nat
  unique_tracks : List String
  tracklistLogged : Bool
  blankErrorLogged : Bool
  successLogged : Bool
deriving DecidableEq

/-- `process_audio_file` (`src/shazam.py:308-351`). Effect inputs:
`headerOk` / `blankOk` — whether its two direct output-artifact writes (header
line, trailing blank line) succeed; on a failed header write the function logs
and returns at once. `decode` — `some audio` when `AudioSegment.from_file`
decodes the source, `none` when it raises; the exception is caught inside
`segment_audio`, which logs and materializes no segment files. `recog i` — the
string `get_name` returns for segment file `i.mp3` (always a string,
`get_name_total`); the sorted listing processed is `1.mp3 .. n.mp3`
(see `sorted_listing_strictly_increasing`). `writeOk` — per-call success of
`write_to_file`'s filesystem write. -/
def process_audio_file (basename : String) (headerOk : Bool)
    (decode : Option (List α)) (recog : Nat → String)
    (writeOk : Nat → Bool) (blankOk : Bool) : FileEvents :=
  if headerOk then
    let segs : List (List α) :=
      match decode with
      | some audio => segment_audio_segments audio
      | none => []
    let n := segs.length
    let results := (List.range' 1 n).map recog
    let st := recognize_segments writeOk results
    { fileLines := fileHeader basename :: st.fileLines ++ (if blankOk then [""] else [])
      headerErrorLogged := false
      segmentErrorLogged := decode.isNone
      recognitionCalls := n
      unique_tracks := st.unique_tracks
      tracklistLogged := !st.unique_tracks.isEmpty
      blankErrorLogged := !blankOk
      successLogged := true }
  else
    { fileLines := []
      headerErrorLogged := true
      segmentErrorLogged := false
      recognitionCalls := 0
      unique_tracks := []
      tracklistLogged := false
      blankErrorLogged := false
      successLogged := false }

theorem mem_write_to_file {x data : String} {writeOk : Bool}
    (h : x ∈ write_to_file data writeOk) : x = data ∧ data ≠ "Not found" := by
  unfold write_to_file at h
  by_cases hd : data ≠ "Not found"
  · rw [if_pos hd] at h
    cases writeOk with
    | true => simp at h; exact ⟨h, hd⟩
    | false => simp at h
  · rw [if_neg hd] at h
    simp at h

theorem recognize_foldl_no_sentinel (writeOk : Nat → Bool) :
    ∀ (results : List String) (st : SeqState),
      (∀ x ∈ st.fileLines, x ≠ "Not found") →
      ∀ x ∈ (results.foldl (recognize_segment_step writeOk) st).fileLines,
        x ≠ "Not found" := by
  intro results
  induction results with
  | nil => intro st h; exact h
  | cons r rs ih =>
    intro st h
    rw [List.foldl_cons]
    refine ih _ ?_
    unfold recognize_segment_step
    by_cases hc : r ≠ "Not found" ∧ r ∉ st.seen_tracks
    · rw [if_pos hc]
      intro x hx
      rcases List.mem_append.mp hx with hx' | hx'
      · exact h x hx'
      · obtain ⟨rfl, hd⟩ := mem_write_to_file hx'
        exact hd
    · rw [if_neg hc]
      exact h

theorem recognize_foldl_all_sentinel (writeOk : Nat → Bool) :
    ∀ (results : List String) (st : SeqState),
      (∀ r ∈ results, r = "Not found") →
      results.foldl (recognize_segment_step writeOk) st = st := by
  intro results
  induction results with
  | nil => intro st _; rfl
  | cons r rs ih =>
    intro st h
    rw [List.foldl_cons]
    have hr : r = "Not found" := h r (List.mem_cons_self r rs)
    have hstep : recognize_segment_step writeOk st r = st := by
      unfold recognize_segment_step
      rw [if_neg (by simp [hr])]
    rw [hstep]
    exact ih st (fun x hx => h x (List.mem_cons.mpr (Or.inr hx)))

theorem fileHeader_ne_sentinel (b : String) : fileHeader b ≠ "Not found" := by
  intro h
  have hl := congrArg String.length h
  simp only [fileHeader, String.length_append] at hl
  have h1 : ("===== " : String).length = 6 := by decide
  have h2 : (" ======" : String).length = 7 := by decide
  have h3 : ("Not found" : String).length = 9 := by decide
  omega

/-- C4: a line equal to the sentinel `"Not found"` is never appended to the
output artifact; a file's section consists of the header line, one line per
distinct recognized track, and the blank separator, and when every segment
returns the sentinel it is exactly header plus blank line. -/
theorem no_sentinel_in_output (basename : String) (headerOk : Bool)
    (decode : Option (List α)) (recog : Nat → String)
    (writeOk : Nat → Bool) (blankOk : Bool) :
    ("Not found"
        ∉ (process_audio_file basename headerOk decode recog writeOk blankOk).fileLines)
    ∧ (headerOk = true → blankOk = true → (∀ i, recog i = "Not found") →
        (process_audio_file basename headerOk decode recog writeOk blankOk).fileLines
          = [fileHeader basename, ""]) := by
  constructor
  · cases headerOk with
    | false => simp [process_audio_file]
    | true =>
      simp only [process_audio_file, if_pos]
      intro hmem
      rcases List.mem_cons.mp hmem with hh | hh
      · exact fileHeader_ne_sentinel basename hh.symm
      · rcases List.mem_append.mp hh with hl | hl
        · exact recognize_foldl_no_sentinel writeOk _ ⟨[], [], [], 0⟩
            (by intro x hx; simp at hx) _ hl rfl
        · cases blankOk with
          | true => simp at hl
          | false => simp at hl
  · intro hh hb hrec
    subst hh; subst hb
    simp only [process_audio_file, if_pos]
    have hall : ∀ r ∈ (List.range' 1
        ((match decode with
          | some audio => segment_audio_segments audio
          | none => []) : List (List α)).length).map recog, r = "Not found" := by
      intro r hr
      obtain ⟨i, _, rfl⟩ := List.mem_map.mp hr
      exact hrec i
    rw [show recognize_segments writeOk _ = ⟨[], [], [], 0⟩ from
      recognize_foldl_all_sentinel writeOk _ ⟨[], [], [], 0⟩ hall]
    simp

/-- Witness for C4: a one-segment file whose only segment returns the
sentinel produces exactly header plus blank line. -/
theorem no_sentinel_in_output_witness :
    (process_audio_file "mix.mp3" true (some [()]) (fun _ => "Not found")
        (fun _ => true) true).fileLines = [fileHeader "mix.mp3", ""] :=
  (no_sentinel_in_output "mix.mp3" true (some [()]) (fun _ => "Not found")
      (fun _ => true) true).2 rfl rfl (fun _ => rfl)

/-- Per-file inputs to `process_audio_file` as invoked by the batch loops
(`src/shazam.py:382-385`, `469-471`). -/
structure FileInput (α : Type _) where
  basename : String
  headerOk : Bool
  decode : Option (List α)
  recog : Nat → String
  writeOk : Nat → Bool
  blankOk : Bool

/-- `process_audio_file` applied to one batch item. -/
def runFile (f : FileInput α) : FileEvents :=
  process_audio_file f.basename f.headerOk f.decode f.recog f.writeOk f.blankOk

/-- The batch driver loop (`src/shazam.py:382-385`): `process_audio_file`
once per candidate file, in order, regardless of the previous file's events. -/
def process_files (files : List (FileInput α)) : List FileEvents :=
  files.map runFile

/-- C5 counterexample: with a failing decode, `process_audio_file` does not
abort — the exception is caught inside `segment_audio`, the trailing blank
separator is still written after the header, and the run still ends with the
"Successfully processed" report. -/
theorem decode_failure_counterexample :
    (process_audio_file "song.mp3" true (none : Option (List Unit))
        (fun _ => "A - B") (fun _ => true) true).successLogged = true
    ∧ (process_audio_file "song.mp3" true (none : Option (List Unit))
        (fun _ => "A - B") (fun _ => true) true).fileLines
        = [fileHeader "song.mp3", ""] :=
  ⟨rfl, rfl⟩

/-- C5 (amended): a decode failure is reported (logged inside `segment_audio`)
and degrades the file to zero segments — no recognition call is made, no
track enters the tracklist, no tracklist summary is emitted — but the file's
pipeline is not aborted: the header and blank separator are still written,
the file is still reported as successfully processed, and the batch continues
with the remaining files. -/
theorem decode_failure_degrades (basename : String) (recog : Nat → String)
    (writeOk : Nat → Bool) (rest : List (FileInput Unit)) :
    (process_audio_file basename true (none : Option (List Unit)) recog writeOk
        true).segmentErrorLogged = true
    ∧ (process_audio_file basename true (none : Option (List Unit)) recog writeOk
        true).recognitionCalls = 0
    ∧ (process_audio_file basename true (none : Option (List Unit)) recog writeOk
        true).unique_tracks = []
    ∧ (process_audio_file basename true (none : Option (List Unit)) recog writeOk
        true).tracklistLogged = false
    ∧ (process_audio_file basename true (none : Option (List Unit)) recog writeOk
        true).fileLines = [fileHeader basename, ""]
    ∧ (process_audio_file basename true (none : Option (List Unit)) recog writeOk
        true).successLogged = true
    ∧ process_files (⟨basename, true, none, recog, writeOk, true⟩ :: rest)
        = process_audio_file basename true (none : Option (List Unit)) recog writeOk
            true :: process_files rest :=
  ⟨rfl, rfl, rfl, rfl, rfl, rfl, rfl⟩

/-- C6 counterexample: when the header write fails, `process_audio_file`
returns at once (`src/shazam.py:323`): for a decodable one-segment file whose
segment recognizes to `"A - B"`, no recognition happens and the in-memory
tracklist stays empty, although the same input with a succeeding header write
performs 1 recognition call and collects `["A - B"]`. -/
theorem header_failure_counterexample :
    (process_audio_file "song.mp3" false (some [()]) (fun _ => "A - B")
        (fun _ => true) true).recognitionCalls = 0
    ∧ (process_audio_file "song.mp3" false (some [()]) (fun _ => "A - B")
        (fun _ => true) true).unique_tracks = []
    ∧ (process_audio_file "song.mp3" false (some [()]) (fun _ => "A - B")
        (fun _ => true) true).headerErrorLogged = true
    ∧ (process_audio_file "song.mp3" true (some [()]) (fun _ => "A - B")
        (fun _ => true) true).recognitionCalls = 1
    ∧ (process_audio_file "song.mp3" true (some [()]) (fun _ => "A - B")
        (fun _ => true) true).unique_tracks = ["A - B"] := by
  refine ⟨rfl, rfl, rfl, ?_, ?_⟩ <;> decide

/-- C6 (amended): a failed header write is logged and aborts that file's
processing entirely — no segmentation, recognition, tracklist or output lines
— while remaining non-fatal to the batch, which continues with the next file;
a failed blank-separator write, by contrast, is logged and does not abort:
recognition, the in-memory tracklist and the success report are unaffected. -/
theorem persistence_failure_policy (basename : String) (decode : Option (List Unit))
    (recog : Nat → String) (writeOk : Nat → Bool) (blankOk : Bool)
    (rest : List (FileInput Unit)) :
    (process_audio_file basename false decode recog writeOk blankOk
        = ⟨[], true, false, 0, [], false, false, false⟩)
    ∧ (process_files (⟨basename, false, decode, recog, writeOk, blankOk⟩ :: rest)
        = process_audio_file basename false decode recog writeOk blankOk
            :: process_files rest)
    ∧ ((process_audio_file basename true decode recog writeOk false).unique_tracks
        = (process_audio_file basename true decode recog writeOk true).unique_tracks)
    ∧ (process_audio_file basename true decode recog writeOk false).blankErrorLogged
        = true
    ∧ (process_audio_file basename true decode recog writeOk false).successLogged
        = true
    ∧ ((process_audio_file basename true decode recog writeOk false).recognitionCalls
        = (process_audio_file basename true decode recog writeOk true).recognitionCalls) :=
  ⟨rfl, rfl, rfl, rfl, rfl, rfl⟩

theorem recognize_foldl_lines (writeOk : Nat → Bool) (hok : ∀ i, writeOk i = true) :
    ∀ (results : List String) (st : SeqState),
      st.fileLines = st.unique_tracks →
      (results.foldl (recognize_segment_step writeOk) st).fileLines
        = (results.foldl (recognize_segment_step writeOk) st).unique_tracks := by
  intro results
  induction results with
  | nil => intro st h; exact h
  | cons r rs ih =>
    intro st h
    rw [List.foldl_cons]
    refine ih _ ?_
    unfold recognize_segment_step
    by_cases hc : r ≠ "Not found" ∧ r ∉ st.seen_tracks
    · rw [if_pos hc]
      simp only
      rw [write_to_file, if_pos hc.1, hok st.writeCalls, if_pos rfl, h]
    · rw [if_neg hc]
      exact h

theorem recognize_segments_lines (writeOk : Nat → Bool)
    (hok : ∀ i, writeOk i = true) (results : List String) :
    (recognize_segments writeOk results).fileLines
      = (recognize_segments writeOk results).unique_tracks := by
  unfold recognize_segments
  exact recognize_foldl_lines writeOk hok results ⟨[], [], [], 0⟩ rfl

/-- C8: when all persistence writes succeed, each file's section in the output
artifact is its header line, then exactly that file's in-memory summary of
distinct recognized tracks in discovery order, then the blank separator; so
concatenating all per-file sections reproduces every file's summary. -/
theorem output_roundtrip (files : List (FileInput Unit))
    (h : ∀ f ∈ files, f.headerOk = true ∧ f.blankOk = true
        ∧ ∀ i, f.writeOk i = true) :
    (∀ f ∈ files, (runFile f).fileLines
        = fileHeader f.basename :: (runFile f).unique_tracks ++ [""])
    ∧ ((process_files files).map FileEvents.fileLines).flatten
        = (files.map
            (fun f => fileHeader f.basename :: (runFile f).unique_tracks ++ [""])).flatten := by
  have hper : ∀ f ∈ files, (runFile f).fileLines
      = fileHeader f.basename :: (runFile f).unique_tracks ++ [""] := by
    intro f hf
    obtain ⟨hh, hb, hw⟩ := h f hf
    unfold runFile process_audio_file
    rw [hh, if_pos rfl, hb]
    simp only [if_pos]
    rw [recognize_segments_lines f.writeOk hw]
  refine ⟨hper, ?_⟩
  refine congrArg List.flatten ?_
  unfold process_files
  rw [List.map_map]
  exact List.map_congr_left (fun f hf => hper f hf)

/-- Witness for C8: two files — one with a recognized track, one with a failed
decode — whose concatenated sections reproduce both summaries. -/
theorem output_roundtrip_witness :
    ((process_files
        [⟨"a.mp3", true, some [()], fun _ => "A - B", fun _ => true, true⟩,
         (⟨"b.mp3", true, none, fun _ => "X - Y", fun _ => true, true⟩ : FileInput Unit)]).map
        FileEvents.fileLines).flatten
      = [fileHeader "a.mp3", "A - B", "", fileHeader "b.mp3", ""] := by
  have h := (output_roundtrip
    [⟨"a.mp3", true, some [()], fun _ => "A - B", fun _ => true, true⟩,
     ⟨"b.mp3", true, none, fun _ => "X - Y", fun _ => true, true⟩]
    (by
      intro f hf
      rcases List.mem_cons.mp hf with rfl | hf'
      · exact ⟨rfl, rfl, fun i => rfl⟩
      · rcases List.mem_cons.mp hf' with rfl | hf''
        · exact ⟨rfl, rfl, fun i => rfl⟩
        · exact absurd hf'' (List.not_mem_nil f))).2
  rw [h]
  decide

/-- `os.path.splitext(x)[0]` for the names used here: the name with its final
dot-extension removed (whole name when it has no dot). -/
def splitext_root (s : String) : String :=
  let rev := s.data.reverse
  let ext := rev.takeWhile (fun c => c ≠ '.')
  if ext.length = rev.length then s else ⟨(rev.drop (ext.length + 1)).reverse⟩

/-- Python `int(...)` on the decimal digit strings produced by
`segmentFileName` (its only use at `src/shazam.py:330`). -/
def int_of_digits (s : String) : Nat :=
  s.data.foldl (fun acc c => acc * 10 + (c.toNat - '0'.toNat)) 0

/-- The sort key `lambda x: int(os.path.splitext(x)[0])` (`src/shazam.py:330`). -/
def numeric_key (s : String) : Nat := int_of_digits (splitext_root s)

/-- `sorted(os.listdir(tmp_dir), key=...)` (`src/shazam.py:330`): Python's
`sorted` is a stable sort, modelled by insertion sort on the key order, which
is stable and extensionally equal to any stable sort for this total key
preorder. -/
def sorted_by_int_key (files : List String) : List String :=
  files.insertionSort (fun a b => numeric_key a ≤ numeric_key b)

/-- C7: the orchestrator sorts the materialized segment files by numeric
index: whenever the listing's numeric keys are a permutation of `1..N`
(a fully materialized buffer, in whatever order `os.listdir` returns it), the
processed key sequence is exactly `1..N` — strictly increasing, no gaps, no
duplicates; and the order is numeric, not lexical: `"2.mp3"` is processed
before `"10.mp3"` although `"10.mp3" < "2.mp3"` as strings. -/
theorem sorted_listing_strictly_increasing (N : Nat) (files : List String)
    (hperm : (files.map numeric_key).Perm (List.range' 1 N)) :
    ((sorted_by_int_key files).map numeric_key = List.range' 1 N)
    ∧ List.Pairwise (fun a b => a < b) ((sorted_by_int_key files).map numeric_key)
    ∧ sorted_by_int_key ["10.mp3", "2.mp3"] = ["2.mp3", "10.mp3"]
    ∧ ("10.mp3" < "2.mp3") := by
  have hr : ∀ a b : String,
      (fun a b => numeric_key a ≤ numeric_key b) a b
        ∨ (fun a b => numeric_key a ≤ numeric_key b) b a :=
    fun a b => Nat.le_total (numeric_key a) (numeric_key b)
  haveI : IsTotal String (fun a b => numeric_key a ≤ numeric_key b) := ⟨hr⟩
  haveI : IsTrans String (fun a b => numeric_key a ≤ numeric_key b) :=
    ⟨fun _ _ _ hab hbc => le_trans hab hbc⟩
  have hsorted : List.Sorted (fun a b => numeric_key a ≤ numeric_key b)
      (sorted_by_int_key files) :=
    List.sorted_insertionSort (fun a b => numeric_key a ≤ numeric_key b) files
  have hmapsorted : List.Sorted (fun a b : Nat => a ≤ b)
      ((sorted_by_int_key files).map numeric_key) :=
    List.pairwise_map.mpr hsorted
  have hmapperm : ((sorted_by_int_key files).map numeric_key).Perm
      (List.range' 1 N) :=
    ((List.perm_insertionSort _ files).map numeric_key).trans hperm
  have hrangesorted : List.Sorted (fun a b : Nat => a ≤ b) (List.range' 1 N) :=
    (List.pairwise_lt_range' 1 N).imp (fun h => Nat.le_of_lt h)
  have hmain : (sorted_by_int_key files).map numeric_key = List.range' 1 N :=
    List.eq_of_perm_of_sorted hmapperm hmapsorted hrangesorted
  refine ⟨hmain, ?_, by decide, by simp; decide⟩
  rw [hmain]
  exact List.pairwise_lt_range' 1 N

/-- Witness for C7: a shuffled listing of three segment files is processed in
numeric order `1, 2, 3`. -/
theorem sorted_listing_strictly_increasing_witness :
    (sorted_by_int_key ["3.mp3", "1.mp3", "2.mp3"]).map numeric_key
      = List.range' 1 3 :=
  (sorted_listing_strictly_increasing 3 ["3.mp3", "1.mp3", "2.mp3"] (by decide)).1

/-- `ALLOWED_DOMAINS` (`src/shazam.py:22-26`), the Python set modelled as a
list queried by membership. -/
def ALLOWED_DOMAINS : List String :=
  ["youtube.com", "www.youtube.com", "m.youtube.com",
   "youtu.be",
   "soundcloud.com", "www.soundcloud.com", "m.soundcloud.com"]

/-- `validate_url` (`src/shazam.py:29-36`) as acceptance: given the parsed
scheme and optional hostname of the URL, it returns (instead of raising)
exactly when the scheme is `http`/`https` and the hostname is in the
allowlist (`None` is never in the allowlist). -/
def validate_url_accepts (scheme : String) (hostname : Option String) : Bool :=
  (scheme = "http" || scheme = "https")
    && (match hostname with
        | some h => ALLOWED_DOMAINS.contains h
        | none => false)

/-- `pattern` occurs at the head of `text`. -/
def startsWithChars : List Char → List Char → Bool
  | [], _ => true
  | _ :: _, [] => false
  | c :: cs, d :: ds => c = d && startsWithChars cs ds

/-- Python's substring test `needle in hay`, on character lists. -/
def containsSub (hay needle : List Char) : Bool :=
  startsWithChars needle hay
    || (match hay with
        | [] => false
        | _ :: rest => containsSub rest needle)

/-- The three branches of `download_from_url` (`src/shazam.py:212-222`). -/
inductive DownloadBranch where
  | soundcloud : DownloadBranch
  | youtube : DownloadBranch
  | unsupported : DownloadBranch
deriving DecidableEq

/-- The hostname dispatch of `download_from_url` (`src/shazam.py:214-222`):
`'soundcloud.com' in hostname`, `'youtube.com' in hostname or
hostname == 'youtu.be'`, else the "Unsupported URL format" branch. -/
def download_dispatch (hostname : String) : DownloadBranch :=
  if containsSub hostname.data "soundcloud.com".data then .soundcloud
  else if containsSub hostname.data "youtube.com".data || hostname = "youtu.be" then
    .youtube
  else .unsupported

/-- C10: any URL accepted by `validate_url` has a hostname, and on it the
dispatch of `download_from_url` selects the SoundCloud or YouTube branch —
the final "Unsupported URL format" branch is unreachable, because each
allowlisted hostname contains `soundcloud.com`, contains `youtube.com`, or
equals `youtu.be`. -/
theorem validated_dispatch_supported (scheme : String) (hostname : Option String)
    (h : validate_url_accepts scheme hostname = true) :
    ∃ hn, hostname = some hn ∧ download_dispatch hn ≠ DownloadBranch.unsupported := by
  match hostname with
  | none => simp [validate_url_accepts] at h
  | some hn =>
    refine ⟨hn, rfl, ?_⟩
    have hmem : hn ∈ ALLOWED_DOMAINS := by
      unfold validate_url_accepts at h
      rw [Bool.and_eq_true] at h
      simpa using h.2
    fin_cases hmem <;> decide

/-- Witness for C10 at a concrete accepted URL (`https://soundcloud.com/...`). -/
theorem validated_dispatch_supported_witness :
    ∃ hn, (some "soundcloud.com" : Option String) = some hn
      ∧ download_dispatch hn ≠ DownloadBranch.unsupported :=
  validated_dispatch_supported "https" (some "soundcloud.com") (by decide)

end Shazam
